import Mathlib

/-!
Shallow embedding of the multi-recipient transfer operation of
ProtoconNet/mitum-account-extension-proto (src/currency/transfer.go), together
with the helper contracts the file uses (state keys, amount states, lookup
helpers).  Pure Go functions become Lean functions; the two callback
parameters `getState`/`setState` are modelled as explicit function arguments,
and the invocations of the commit callback are recorded in an explicit commit
log so that frame properties ("PreProcess never commits") are provable.

Machine values: Go `Amount` wraps a big integer, modelled as `Int`; byte
slices are `List Nat`; hashes are byte lists produced by an explicit hash
function argument `H : List Nat → List Nat` standing for SHA-256.
-/

/-- Errors produced while validating or processing an operation.  The
constructors mirror the error-construction idioms of the Go source:
`msg`/`wrap` are plain `xerrors.Errorf` (without / with a `%w` cause),
`reason` is `operation.NewBaseReasonError`, `invalid` is
`isvalid.InvalidError.Errorf`, and `ignoreMsg`/`ignoreWrap` are
`util.IgnoreError.Errorf` / `util.IgnoreError.Wrap` — the dedicated
ignorable-error convention. -/
inductive PErr where
  | msg : String → PErr
  | wrap : String → PErr → PErr
  | reason : String → PErr
  | invalid : String → PErr
  | ignoreMsg : String → PErr
  | ignoreWrap : PErr → PErr
deriving DecidableEq, Repr

/-- Modelled from the spec: an error is of the ignorable (recoverable
rejection) class exactly when it was built through the `util.IgnoreError`
wrapping convention. -/
def PErr.isIgnorable : PErr → Bool
  | .ignoreMsg _ => true
  | .ignoreWrap _ => true
  | _ => false

/-- Modelled from the spec: `base.Address`, an account address with a
canonical string form (`String()` in Go) and a structural well-formedness
flag standing for the outcome of its `IsValid` check. -/
structure Address where
  str : String
  wf : Bool
deriving DecidableEq, Repr

/-- Byte encoding of an address (`Address.Bytes()` in Go), derived
injectively from its canonical string. -/
def Address.Bytes (a : Address) : List Nat :=
  a.str.toList.map Char.toNat

/-- Address equality (`Address.Equal` in Go) compares canonical strings. -/
def Address.Equal (a b : Address) : Bool :=
  a.str == b.str

/-- Modelled from the spec: `Amount` is a non-negative integer value
(`currency.Amount` wraps a big integer; the type itself is not under src/).
Arithmetic is exact integer arithmetic; non-negativity is the structural
validity predicate checked by `isvalid.Check`. -/
abbrev Amount := Int

/-- Modelled from the spec: byte encoding of an amount value. -/
def Amount.Bytes (a : Amount) : List Nat :=
  [a.natAbs]

/-- Hash values (`valuehash.Hash`) are byte lists. -/
abbrev Hash := List Nat

/-- Hash primitive parameter standing for `valuehash.NewSHA256`. -/
abbrev HashFn := List Nat → List Nat

/-- Modelled from the spec: the canonical state-key encoding of an address
(`currency.StateAddressKey`, not under src/), used to detect duplicate
receivers. -/
def StateAddressKey (a : Address) : String :=
  a.str

/-- Modelled from the spec: the account-existence state key for an address
(`currency.StateKeyAccount`, not under src/), derived deterministically from
the address as in src/extension/state.go. -/
def StateKeyAccount (a : Address) : String :=
  a.str ++ ":account"

/-- Modelled from the spec: the balance state key for an address
(`currency.StateKeyBalance`, not under src/). -/
def StateKeyBalance (a : Address) : String :=
  a.str ++ ":balance"

/-- Value stored in a ledger state entry: an account-existence record or a
balance record holding an amount. -/
inductive StateValue where
  | account : StateValue
  | balance : Int → StateValue
deriving DecidableEq, Repr

/-- Modelled from the spec: a ledger state entry (`state.State`), a keyed
value. -/
structure St where
  key : String
  value : StateValue
deriving DecidableEq, Repr

/-- Modelled from the spec: `StateAmountValue` extracts the amount stored in
a balance state entry and fails on any other entry. -/
def StateAmountValue (st : St) : Except PErr Int :=
  match st.value with
  | .balance v => .ok v
  | _ => .error (.msg "amount not found in State")

/-- Modelled from the spec: `AmountState` wraps a looked-up account-balance
ledger entry and offers pure arithmetic transforms returning new values,
plus a metadata field recording the fee charged in this transition. -/
structure AmountState where
  key : String
  amount : Int
  fee : Int
deriving DecidableEq, Repr

instance : Inhabited AmountState := ⟨⟨"", 0, 0⟩⟩

/-- Modelled from the spec: `NewAmountState` wraps a state entry as an
amount state carrying its current balance value. -/
def NewAmountState (st : St) : AmountState :=
  { key := st.key
    amount := match st.value with
      | .balance v => v
      | _ => 0
    fee := 0 }

/-- Pure credit transform on an amount state (`AmountState.Add`). -/
def AmountState.Add (a : AmountState) (v : Int) : AmountState :=
  { a with amount := a.amount + v }

/-- Pure debit transform on an amount state (`AmountState.Sub`). -/
def AmountState.Sub (a : AmountState) (v : Int) : AmountState :=
  { a with amount := a.amount - v }

/-- Fee-metadata transform on an amount state (`AmountState.AddFee`);
records the fee without changing the balance amount. -/
def AmountState.AddFee (a : AmountState) (v : Int) : AmountState :=
  { a with fee := a.fee + v }

/-- The `getState` callback: a point read of a keyed ledger entry returning
(found value or absence) or a read error, the Go signature
`func(key string) (state.State, bool, error)`. -/
abbrev GetState := String → Except PErr (Option St)

/-- The `setState` callback: the atomic multi-entry commit,
`func(valuehash.Hash, ...state.State) error`. -/
abbrev SetState := Hash → List AmountState → Option PErr

/-- A record of the commit-callback invocations made by a processing
function: one entry per `setState` call, carrying its arguments. -/
abbrev CommitLog := List (Hash × List AmountState)

/-- Modelled from the spec: a signature attached to a fact
(`operation.FactSign`), kept opaque up to its byte encoding. -/
structure FactSign where
  bytes : List Nat
deriving DecidableEq, Repr

/-- Modelled from the spec: the pluggable fee policy `FeeAmount.Fee`,
mapping a transferred amount to a fee amount or an error. -/
abbrev FeeAmount := Int → Except PErr Int

/-- Modelled from the spec: the signature-authorization check
`checkFactSignsByState(sender, signs, getState)`, returning success or a
descriptive authorization failure. -/
abbrev CheckSigns := Address → List FactSign → GetState → Except PErr Unit

/-- One (receiver, amount) pair of a transfer operation
(src/currency/transfer.go, `TransferItem`). -/
structure TransferItem where
  receiver : Address
  amount : Amount
deriving DecidableEq, Repr

/-- Byte encoding of a transfer item (`TransferItem.Bytes`):
receiver bytes concatenated with amount bytes. -/
def TransferItem.Bytes (it : TransferItem) : List Nat :=
  it.receiver.Bytes ++ it.amount.Bytes

/-- Structural validity of a transfer item (`TransferItem.IsValid`):
receiver and amount must be structurally valid, and the amount must not be
zero. -/
def TransferItem.isValid (it : TransferItem) : Option PErr :=
  if it.receiver.wf = false then some (.msg "invalid receiver address")
  else if it.amount < 0 then some (.msg "invalid amount value")
  else if it.amount = 0 then some (.msg "amount should be over zero")
  else none

/-- Maximum number of items per transfer operation
(`maxTransferItems = 10`). -/
def maxTransferItems : Nat := 10

/-- The immutable transfer fact (src/currency/transfer.go,
`TransfersFact`): stored hash, token, sender, ordered item list. -/
structure TransfersFact where
  h : Hash
  token : List Nat
  sender : Address
  items : List TransferItem
deriving DecidableEq, Repr

/-- Byte encoding of the fact fields fed to the hash:
token ‖ sender bytes ‖ concatenated item encodings. -/
def factBytes (token : List Nat) (sender : Address) (items : List TransferItem) : List Nat :=
  token ++ sender.Bytes ++ (items.map TransferItem.Bytes).flatten

/-- `TransfersFact.Bytes`: the fact's canonical byte encoding (the stored
hash is not part of it). -/
def TransfersFact.Bytes (tff : TransfersFact) : List Nat :=
  factBytes tff.token tff.sender tff.items

/-- `TransfersFact.GenerateHash`: hash of the fact's bytes. -/
def TransfersFact.GenerateHash (H : HashFn) (tff : TransfersFact) : Hash :=
  H tff.Bytes

/-- `NewTransfersFact`: stores the fields and the hash computed from them;
no validation is performed at construction. -/
def NewTransfersFact (H : HashFn) (token : List Nat) (sender : Address)
    (items : List TransferItem) : TransfersFact :=
  let tff : TransfersFact := { h := [], token := token, sender := sender, items := items }
  { tff with h := tff.GenerateHash H }

/-- `TransfersFact.Amount`: the principal, the sum of all item amounts. -/
def TransfersFact.Amount (tff : TransfersFact) : Int :=
  tff.items.foldl (fun a it => a + it.amount) 0

/-- `TransfersFact.Addresses`: all receivers in item order followed by the
sender; never fails and applies no deduplication. -/
def TransfersFact.Addresses (tff : TransfersFact) : Except PErr (List Address) :=
  .ok (tff.items.map TransferItem.receiver ++ [tff.sender])

/-- The per-item loop of `TransfersFact.IsValid`: validates each item and
builds the set of receiver state keys incrementally, rejecting a key already
seen ("duplicated receiver") and a receiver equal to the sender. -/
def checkItems (sender : Address) (found : List String) : List TransferItem → Option PErr
  | [] => none
  | it :: rest =>
    match it.isValid with
    | some e => some e
    | none =>
      if StateAddressKey it.receiver ∈ found then
        some (.msg "duplicated receiver found")
      else if sender.Equal it.receiver then
        some (.msg "receiver is same with sender")
      else
        checkItems sender (StateAddressKey it.receiver :: found) rest

/-- `TransfersFact.IsValid`: non-empty token, item-count bounds, structural
validity of the stored hash and the sender, the per-item loop, then hash
re-verification. -/
def TransfersFact.isValid (H : HashFn) (tff : TransfersFact) : Option PErr :=
  if tff.token = [] then some (.msg "empty token for TransferFact")
  else if tff.items.length < 1 then some (.msg "empty items")
  else if tff.items.length > maxTransferItems then some (.msg "items over max")
  else if tff.h = [] then some (.msg "invalid fact hash")
  else if tff.sender.wf = false then some (.msg "invalid sender address")
  else
    match checkItems tff.sender [] tff.items with
    | some e => some e
    | none =>
      if tff.h = tff.GenerateHash H then none
      else some (.invalid "wrong Fact hash")

/-- The signed operation envelope (src/currency/transfer.go, `Transfers`):
fact, attached signatures, memo, and the envelope's own hash. -/
structure Transfers where
  fact : TransfersFact
  signs : List FactSign
  memo : String
  h : Hash

/-- `Transfers.Process` is a nil function: it ignores both callbacks,
returns no error and makes no commit call. -/
def Transfers.Process (_tf : Transfers) (_ : GetState) (_ : SetState) :
    Option PErr × CommitLog :=
  (none, [])

/-- Modelled from the spec: `checkExistsAccountState` (not under src/),
mirroring `checkExistsState` of src/extension/state.go — a read error passes
through, an absent entry is a reason error, a present entry succeeds. -/
def checkExistsAccountState (k : String) (getState : GetState) : Option PErr :=
  match getState k with
  | .error e => some e
  | .ok none => some (.reason ("state, " ++ k ++ " does not exist"))
  | .ok (some _) => none

/-- Modelled from the spec: `existsAccountState` (not under src/), mirroring
`existsState` of src/extension/state.go — returns the entry when present,
a reason error naming what is missing otherwise. -/
def existsAccountState (k name : String) (getState : GetState) : Except PErr St :=
  match getState k with
  | .error e => .error e
  | .ok none => .error (.reason (name ++ " does not exist"))
  | .ok (some st) => .ok st

/-- Per-item processor (src/currency/transfer.go, `TransferProcessor`):
operation hash, the item, and the resolved receiver balance state. -/
structure TransferProcessor where
  h : Hash
  fact : TransferItem
  rb : AmountState

/-- `TransferProcessor.PreProcess`: requires the receiver's account record
and balance record to be present and stores the resolved balance state; the
commit callback is received but never used (Go binds it to `_`). -/
def TransferProcessor.preProcess (c : TransferProcessor) (getState : GetState)
    (_ : SetState) : Except PErr TransferProcessor :=
  match existsAccountState (StateKeyAccount c.fact.receiver) "keys of receiver" getState with
  | .error e => .error e
  | .ok _ =>
    match existsAccountState (StateKeyBalance c.fact.receiver) "balance of receiver" getState with
    | .error e => .error e
    | .ok st => .ok { c with rb := NewAmountState st }

/-- `TransferProcessor.Process`: returns the resolved receiver balance
credited with the item amount; both callbacks are ignored (Go binds them to
`_`) and no error is possible. -/
def TransferProcessor.process (c : TransferProcessor) (_ : GetState)
    (_ : SetState) : Except PErr AmountState :=
  .ok (c.rb.Add c.fact.amount)

/-- Whole-operation processor (src/currency/transfer.go,
`TransfersProcessor`): the envelope, the fee policy, the resolved sender
balance, the per-item processors and the computed fee. -/
structure TransfersProcessor where
  op : Transfers
  fa : FeeAmount
  sb : AmountState
  rb : List TransferProcessor
  fee : Int

/-- The fee-summation loop of `TransfersProcessor.calculateFee`: applies the
fee policy to every item amount, accumulating the sum; a policy error
propagates unchanged. -/
def calcFeeLoop (fa : FeeAmount) (sum : Int) : List TransferItem → Except PErr Int
  | [] => .ok sum
  | it :: rest =>
    match fa it.amount with
    | .error e => .error e
    | .ok f => calcFeeLoop fa (sum + f) rest

/-- `TransfersProcessor.calculateFee`: total fee over the fact's items. -/
def TransfersProcessor.calculateFee (tp : TransfersProcessor) : Except PErr Int :=
  calcFeeLoop tp.fa 0 tp.op.fact.items

/-- The per-item fan-out loop of `TransfersProcessor.PreProcess`: builds one
`TransferProcessor` per item in order and runs its PreProcess; any item
failure is wrapped with the ignorable convention and rejects the whole
operation. -/
def buildItemProcessors (h : Hash) (getState : GetState) (setState : SetState) :
    List TransferItem → Except PErr (List TransferProcessor)
  | [] => .ok []
  | it :: rest =>
    match TransferProcessor.preProcess { h := h, fact := it, rb := default } getState setState with
    | .error e => .error (.ignoreWrap e)
    | .ok c =>
      match buildItemProcessors h getState setState rest with
      | .error e => .error e
      | .ok cs => .ok (c :: cs)

/-- `TransfersProcessor.PreProcess` (src/currency/transfer.go:297-340):
sender account existence, sender balance resolution, fee computation
(ignorable on failure), balance-value extraction (ignorable on failure),
solvency check (ignorable "insufficient balance of sender"), per-item
fan-out (each failure ignorable-wrapped), then the signature-authorization
check whose failure is returned as a plain error wrapping "invalid signing".
The commit callback is passed through to the items but never invoked; the
returned commit log records the (absent) invocations. -/
def TransfersProcessor.preProcess (tp : TransfersProcessor) (checkSigns : CheckSigns)
    (getState : GetState) (setState : SetState) :
    Except PErr TransfersProcessor × CommitLog :=
  (match checkExistsAccountState (StateKeyAccount tp.op.fact.sender) getState with
   | some e => .error e
   | none =>
     match existsAccountState (StateKeyBalance tp.op.fact.sender) "balance of sender" getState with
     | .error e => .error e
     | .ok st =>
       match tp.calculateFee with
       | .error e => .error (.ignoreWrap e)
       | .ok fee =>
         match StateAmountValue st with
         | .error e => .error (.ignoreWrap e)
         | .ok b =>
           if b < tp.op.fact.Amount + fee then
             .error (.ignoreMsg "insufficient balance of sender")
           else
             match buildItemProcessors tp.op.h getState setState tp.op.fact.items with
             | .error e => .error e
             | .ok rb =>
               match checkSigns tp.op.fact.sender tp.op.signs getState with
               | .error e => .error (.wrap "invalid signing" e)
               | .ok _ => .ok { tp with sb := NewAmountState st, fee := fee, rb := rb },
   [])

/-- The item loop of `TransfersProcessor.Process`: runs each resolved item
processor in order collecting the credited receiver balances; an item error
would be wrapped with the ignorable convention (`failed to process transfer
item`). -/
def processItems (getState : GetState) (setState : SetState) :
    List TransferProcessor → Except PErr (List AmountState)
  | [] => .ok []
  | c :: rest =>
    match c.process getState setState with
    | .error e => .error (.ignoreWrap (.wrap "failed to process transfer item" e))
    | .ok st =>
      match processItems getState setState rest with
      | .error e => .error e
      | .ok sts => .ok (st :: sts)

/-- `TransfersProcessor.Process` (src/currency/transfer.go:342-360):
computes all credited receiver balances, appends the sender's final balance
`sb.Sub(principal + fee).AddFee(fee)`, and issues the single commit call
keyed by the fact hash; the commit log records that one invocation. -/
def TransfersProcessor.process (tp : TransfersProcessor) (getState : GetState)
    (setState : SetState) : Option PErr × CommitLog :=
  match processItems getState setState tp.rb with
  | .error e => (some e, [])
  | .ok rsts =>
    let sts := rsts ++ [(tp.sb.Sub (tp.op.fact.Amount + tp.fee)).AddFee tp.fee]
    (setState tp.op.fact.h sts, [(tp.op.fact.h, sts)])

/-- A concrete sender address used in the closed instances below. -/
def egSender : Address := ⟨"s", true⟩

/-- A concrete receiver address used in the closed instances below. -/
def egReceiver : Address := ⟨"r", true⟩

/-- A concrete transfer item: 5 units to the receiver. -/
def egItem : TransferItem := ⟨egReceiver, 5⟩

/-- A concrete injective hash function standing in for SHA-256. -/
def egH : HashFn := fun b => 0 :: b

/-- A concrete fact built by the constructor. -/
def egFact : TransfersFact := NewTransfersFact egH [1] egSender [egItem]

/-- A concrete signed envelope around the fact. -/
def egOp : Transfers := ⟨egFact, [⟨[7]⟩], "", [9]⟩

/-- A concrete flat fee policy: 1 unit per item. -/
def egFee : FeeAmount := fun _ => .ok 1

/-- A concrete ledger: sender account with balance 100, receiver account
with balance 7. -/
def egGet : GetState := fun k =>
  if k = "s:account" then .ok (some ⟨"s:account", .account⟩)
  else if k = "s:balance" then .ok (some ⟨"s:balance", .balance 100⟩)
  else if k = "r:account" then .ok (some ⟨"r:account", .account⟩)
  else if k = "r:balance" then .ok (some ⟨"r:balance", .balance 7⟩)
  else .ok none

/-- A concrete commit callback that always succeeds. -/
def egSet : SetState := fun _ _ => none

/-- A fresh processor for the concrete operation. -/
def egTP : TransfersProcessor := ⟨egOp, egFee, default, [], 0⟩

/-- A signature-authorization check that rejects every signature set. -/
def egSignFail : CheckSigns := fun _ _ _ => .error (.msg "bad signing")

/-- A signature-authorization check that accepts every signature set. -/
def egSignOK : CheckSigns := fun _ _ _ => .ok ()

/-- The processor state after a successful PreProcess on the concrete
operation: resolved sender balance, one resolved item processor, fee 1. -/
def egTP' : TransfersProcessor :=
  ⟨egOp, egFee, NewAmountState ⟨"s:balance", .balance 100⟩,
    [⟨egOp.h, egItem, NewAmountState ⟨"r:balance", .balance 7⟩⟩], 1⟩

/-- The state batch committed by Process on the concrete operation:
receiver credited to 12, sender debited to 94 with fee 1 recorded. -/
def egSts : List AmountState := [⟨"r:balance", 12, 0⟩, ⟨"s:balance", 94, 1⟩]

/-- Item validity succeeds exactly for a well-formed receiver and a
strictly positive amount. -/
lemma TransferItem.isValid_eq_none_iff (it : TransferItem) :
    it.isValid = none ↔ it.receiver.wf = true ∧ 0 < it.amount := by
  unfold TransferItem.isValid
  split_ifs with h1 h2 h3
  · exact iff_of_false (by simp) (fun hR => by rw [hR.1] at h1; cases h1)
  · exact iff_of_false (by simp) (fun hR => absurd hR.2 (not_lt.mpr h2.le))
  · exact iff_of_false (by simp) (fun hR => absurd hR.2 (by simp [h3]))
  · refine iff_of_true rfl ⟨?_, lt_of_le_of_ne (not_lt.mp h2) (Ne.symm h3)⟩
    cases h : it.receiver.wf
    · exact absurd h h1
    · rfl

/-- The item loop succeeds exactly when every item is valid, the receiver
state keys are distinct among themselves and from the accumulator, and no
receiver equals the sender. -/
lemma checkItems_eq_none_iff (sender : Address) (items : List TransferItem)
    (found : List String) :
    checkItems sender found items = none ↔
      (∀ it ∈ items, it.isValid = none) ∧
      (items.map fun it => StateAddressKey it.receiver).Nodup ∧
      (∀ it ∈ items, StateAddressKey it.receiver ∉ found) ∧
      (∀ it ∈ items, sender.Equal it.receiver = false) := by
  induction items generalizing found with
  | nil => simp [checkItems]
  | cons it rest ih =>
    simp only [checkItems]
    cases hv : it.isValid with
    | some e =>
      refine iff_of_false (by simp) fun hR => ?_
      exact Option.noConfusion ((hR.1 it (List.mem_cons_self it rest)).symm.trans hv)
    | none =>
      dsimp only
      by_cases hf : StateAddressKey it.receiver ∈ found
      · rw [if_pos hf]
        exact iff_of_false (by simp) fun hR => (hR.2.2.1 it (List.mem_cons_self it rest)) hf
      · rw [if_neg hf]
        by_cases hs : sender.Equal it.receiver = true
        · rw [if_pos hs]
          refine iff_of_false (by simp) fun hR => ?_
          have := hR.2.2.2 it (List.mem_cons_self it rest)
          rw [this] at hs
          cases hs
        · rw [if_neg hs]
          rw [ih]
          constructor
          · rintro ⟨hA, hN, hF, hE⟩
            refine ⟨?_, ?_, ?_, ?_⟩
            · intro x hx
              rcases List.mem_cons.mp hx with rfl | hx
              · exact hv
              · exact hA x hx
            · rw [List.map_cons, List.nodup_cons]
              refine ⟨?_, hN⟩
              intro hk
              rcases List.mem_map.mp hk with ⟨x, hx, hkx⟩
              exact (hF x hx) (by rw [hkx]; exact List.mem_cons_self _ _)
            · intro x hx
              rcases List.mem_cons.mp hx with rfl | hx
              · exact hf
              · exact fun hc => (hF x hx) (List.mem_cons_of_mem _ hc)
            · intro x hx
              rcases List.mem_cons.mp hx with rfl | hx
              · simpa using hs
              · exact hE x hx
          · rintro ⟨hA, hN, hF, hE⟩
            rw [List.map_cons, List.nodup_cons] at hN
            refine ⟨fun x hx => hA x (List.mem_cons_of_mem _ hx), hN.2, ?_,
              fun x hx => hE x (List.mem_cons_of_mem _ hx)⟩
            intro x hx hk
            rcases List.mem_cons.mp hk with hkk | hkf
            · exact hN.1 (List.mem_map.mpr ⟨x, hx, hkk⟩)
            · exact (hF x (List.mem_cons_of_mem _ hx)) hkf

/-- C2: TransfersFact.IsValid succeeds if and only if the token is
non-empty, the item count is between 1 and 10, the stored hash and sender
are structurally valid, every item has a well-formed receiver and a
positive amount, no two items share a receiver state key, no receiver
equals the sender, and the stored hash equals the recomputed hash. -/
theorem transfersFact_isValid_none_iff (H : HashFn) (tff : TransfersFact) :
    tff.isValid H = none ↔
      tff.token ≠ [] ∧
      1 ≤ tff.items.length ∧ tff.items.length ≤ 10 ∧
      tff.h ≠ [] ∧ tff.sender.wf = true ∧
      (∀ it ∈ tff.items, it.receiver.wf = true ∧ 0 < it.amount) ∧
      (tff.items.map fun it => StateAddressKey it.receiver).Nodup ∧
      (∀ it ∈ tff.items, tff.sender.Equal it.receiver = false) ∧
      tff.h = tff.GenerateHash H := by
  unfold TransfersFact.isValid
  split_ifs with h1 h2 h3 h4 h5 h6
  · exact iff_of_false (by simp) fun hR => hR.1 h1
  · exact iff_of_false (by simp) fun hR => absurd hR.2.1 (by omega)
  · refine iff_of_false (by simp) fun hR => absurd hR.2.2.1 ?_
    simp only [maxTransferItems] at h3
    omega
  · exact iff_of_false (by simp) fun hR => hR.2.2.2.1 h4
  · exact iff_of_false (by simp) fun hR => by rw [hR.2.2.2.2.1] at h5; cases h5
  · cases hc : checkItems tff.sender [] tff.items with
    | some e =>
      dsimp only
      refine iff_of_false (by simp) fun hR => ?_
      have hnone : checkItems tff.sender [] tff.items = none := by
        rw [checkItems_eq_none_iff]
        exact ⟨fun it hit => (TransferItem.isValid_eq_none_iff it).mpr (hR.2.2.2.2.2.1 it hit),
          hR.2.2.2.2.2.2.1, fun it _ => List.not_mem_nil _, hR.2.2.2.2.2.2.2.1⟩
      rw [hnone] at hc
      cases hc
    | none =>
      dsimp only
      rw [checkItems_eq_none_iff] at hc
      refine iff_of_true rfl ⟨h1, by omega, ?_, h4, ?_, ?_, hc.2.1, hc.2.2.2, h6⟩
      · have := not_lt.mp h3
        simpa [maxTransferItems] using this
      · cases hw : tff.sender.wf
        · exact absurd hw h5
        · rfl
      · exact fun it hit => (TransferItem.isValid_eq_none_iff it).mp (hc.1 it hit)
  · refine iff_of_false ?_ fun hR => h6 hR.2.2.2.2.2.2.2.2
    cases hc : checkItems tff.sender [] tff.items <;> simp

/-- Every error produced by item validation is a plain message error. -/
lemma TransferItem.isValid_err (it : TransferItem) (e : PErr) (h : it.isValid = some e) :
    ∃ m, e = .msg m := by
  unfold TransferItem.isValid at h
  split_ifs at h
  all_goals cases h
  all_goals exact ⟨_, rfl⟩

/-- Every error produced by the item loop is a plain message error; in
particular it is never the "wrong Fact hash" invalidity error. -/
lemma checkItems_err_msg (sender : Address) (found : List String)
    (items : List TransferItem) (e : PErr)
    (h : checkItems sender found items = some e) : ∃ m, e = .msg m := by
  induction items generalizing found with
  | nil => cases h
  | cons it rest ih =>
    simp only [checkItems] at h
    cases hv : it.isValid with
    | some e' =>
      rw [hv] at h
      dsimp only at h
      exact (Option.some.inj h) ▸ TransferItem.isValid_err it e' hv
    | none =>
      rw [hv] at h
      dsimp only at h
      split_ifs at h with hf hs
      · exact ⟨_, (Option.some.inj h).symm⟩
      · exact ⟨_, (Option.some.inj h).symm⟩
      · exact ih _ h

/-- On a fact whose stored hash matches its recomputed hash, validation
never reports the hash-mismatch error. -/
lemma isValid_ne_wrong_hash (H : HashFn) (tff : TransfersFact)
    (hh : tff.h = tff.GenerateHash H) :
    tff.isValid H ≠ some (.invalid "wrong Fact hash") := by
  unfold TransfersFact.isValid
  split_ifs with h1 h2 h3 h4 h5
  · simp
  · simp
  · simp
  · simp
  · simp
  · cases hc : checkItems tff.sender [] tff.items with
    | some e =>
      dsimp only
      obtain ⟨m, rfl⟩ := checkItems_err_msg _ _ _ _ hc
      simp
    | none =>
      dsimp only
      simp

/-- C8: a fact returned by NewTransfersFact stores a hash equal to
GenerateHash of that same fact, so the "wrong Fact hash" branch of IsValid
cannot fire on an unmodified fact. -/
theorem newTransfersFact_hash_roundtrip (H : HashFn) (t : List Nat) (s : Address)
    (i : List TransferItem) :
    (NewTransfersFact H t s i).h = (NewTransfersFact H t s i).GenerateHash H ∧
    (NewTransfersFact H t s i).isValid H ≠ some (.invalid "wrong Fact hash") :=
  ⟨rfl, isValid_ne_wrong_hash H (NewTransfersFact H t s i) rfl⟩

/-- C7: the hash stored by NewTransfersFact is a function of exactly the
(token, sender, items) tuple through the byte encoding, and two tuples
that differ in some field yield different hashes whenever the hash of the
encoding separates them (the assumed collision-freedom of SHA-256). -/
theorem newTransfersFact_hash_det (H : HashFn) (t t' : List Nat) (s s' : Address)
    (i i' : List TransferItem)
    (_hne : ¬(t = t' ∧ s = s' ∧ i = i'))
    (hinj : H (factBytes t s i) ≠ H (factBytes t' s' i')) :
    (NewTransfersFact H t s i).h = H (factBytes t s i) ∧
    (NewTransfersFact H t s i).h ≠ (NewTransfersFact H t' s' i').h :=
  ⟨rfl, hinj⟩

/-- C7 witness: two concrete tuples differing in the token, under a
concrete injective hash function, get different stored hashes. -/
theorem newTransfersFact_hash_det_witness :
    (¬(([1] : List Nat) = [2] ∧ (⟨"a", true⟩ : Address) = ⟨"a", true⟩ ∧
        ([] : List TransferItem) = [])) ∧
    ((fun b => b) (factBytes [1] ⟨"a", true⟩ []) ≠
      (fun b => b) (factBytes [2] ⟨"a", true⟩ [])) ∧
    ((NewTransfersFact (fun b => b) [1] ⟨"a", true⟩ []).h =
        (fun b => b) (factBytes [1] ⟨"a", true⟩ []) ∧
      (NewTransfersFact (fun b => b) [1] ⟨"a", true⟩ []).h ≠
        (NewTransfersFact (fun b => b) [2] ⟨"a", true⟩ []).h) :=
  ⟨by decide, by decide,
    newTransfersFact_hash_det (fun b => b) [1] [2] ⟨"a", true⟩ ⟨"a", true⟩ [] []
      (by decide) (by decide)⟩

/-- C9: Addresses never fails and returns exactly the receivers in item
order followed by the sender, N+1 entries, with no deduplication. -/
theorem transfersFact_addresses_spec (tff : TransfersFact) :
    tff.Addresses = .ok (tff.items.map TransferItem.receiver ++ [tff.sender]) ∧
    (tff.items.map TransferItem.receiver ++ [tff.sender]).length =
      tff.items.length + 1 :=
  ⟨rfl, by simp⟩

/-- C10: the envelope's own Process is a total no-op: it returns no error
and an empty commit log for every pair of callbacks, and its result does
not depend on either callback. -/
theorem transfers_envelope_process_noop (tf : Transfers)
    (g g' : GetState) (s s' : SetState) :
    tf.Process g s = (none, []) ∧ tf.Process g s = tf.Process g' s' :=
  ⟨rfl, rfl⟩

/-- The lookup helper returns an entry exactly when the read succeeds and
finds one. -/
lemma existsAccountState_ok (k n : String) (g : GetState) (st : St) :
    existsAccountState k n g = .ok st ↔ g k = .ok (some st) := by
  unfold existsAccountState
  cases hg : g k with
  | error e => simp
  | ok o => cases o <;> simp

/-- Amount extraction succeeds exactly on a balance entry with that
value. -/
lemma StateAmountValue_ok (st : St) (b : Int) :
    StateAmountValue st = .ok b ↔ st.value = .balance b := by
  unfold StateAmountValue
  cases h : st.value <;> simp

/-- Inversion of a successful per-item PreProcess: the receiver balance
entry was found and the resulting processor stores it wrapped as an amount
state. -/
lemma transferProcessor_preProcess_ok (c0 c : TransferProcessor) (g : GetState)
    (s : SetState) (hp : c0.preProcess g s = .ok c) :
    ∃ st, g (StateKeyBalance c0.fact.receiver) = .ok (some st) ∧
      c = { c0 with rb := NewAmountState st } := by
  unfold TransferProcessor.preProcess at hp
  cases ha : existsAccountState (StateKeyAccount c0.fact.receiver) "keys of receiver" g with
  | error e => rw [ha] at hp; cases hp
  | ok sta =>
    rw [ha] at hp
    dsimp only at hp
    cases hb : existsAccountState (StateKeyBalance c0.fact.receiver) "balance of receiver" g with
    | error e => rw [hb] at hp; cases hp
    | ok st =>
      rw [hb] at hp
      dsimp only at hp
      cases hp
      exact ⟨st, (existsAccountState_ok _ _ _ _).mp hb, rfl⟩

/-- Inversion of a successful item fan-out: the processors carry exactly
the items in order, each holding its receiver's resolved balance state. -/
lemma buildItemProcessors_ok (h : Hash) (g : GetState) (s : SetState)
    (items : List TransferItem) (rb : List TransferProcessor)
    (hb : buildItemProcessors h g s items = .ok rb) :
    rb.map (fun c => c.fact) = items ∧
    ∀ c ∈ rb, ∃ stc, g (StateKeyBalance c.fact.receiver) = .ok (some stc) ∧
      c.rb = NewAmountState stc := by
  induction items generalizing rb with
  | nil =>
    cases hb
    exact ⟨rfl, by simp⟩
  | cons it rest ih =>
    simp only [buildItemProcessors] at hb
    cases hp : TransferProcessor.preProcess ⟨h, it, default⟩ g s with
    | error e => rw [hp] at hb; cases hb
    | ok c =>
      rw [hp] at hb
      dsimp only at hb
      cases hrest : buildItemProcessors h g s rest with
      | error e => rw [hrest] at hb; cases hb
      | ok cs =>
        rw [hrest] at hb
        dsimp only at hb
        cases hb
        obtain ⟨hmap, hall⟩ := ih cs hrest
        obtain ⟨st, hst, rfl⟩ := transferProcessor_preProcess_ok _ _ _ _ hp
        refine ⟨by simp [hmap], ?_⟩
        intro c' hc'
        rcases List.mem_cons.mp hc' with rfl | hc'
        · exact ⟨st, hst, rfl⟩
        · exact hall c' hc'

/-- Every error escaping the item fan-out is wrapped with the ignorable
convention. -/
lemma buildItemProcessors_err (h : Hash) (g : GetState) (s : SetState)
    (items : List TransferItem) (e : PErr)
    (hb : buildItemProcessors h g s items = .error e) : ∃ e', e = .ignoreWrap e' := by
  induction items generalizing e with
  | nil => cases hb
  | cons it rest ih =>
    simp only [buildItemProcessors] at hb
    cases hp : TransferProcessor.preProcess ⟨h, it, default⟩ g s with
    | error e0 =>
      rw [hp] at hb
      dsimp only at hb
      cases hb
      exact ⟨e0, rfl⟩
    | ok c =>
      rw [hp] at hb
      dsimp only at hb
      cases hrest : buildItemProcessors h g s rest with
      | error e0 =>
        rw [hrest] at hb
        dsimp only at hb
        cases hb
        exact ih e hrest
      | ok cs => rw [hrest] at hb; cases hb

/-- The item fan-out never depends on the commit callback it is handed. -/
lemma buildItemProcessors_setState_indep (h : Hash) (g : GetState) (s s' : SetState)
    (items : List TransferItem) :
    buildItemProcessors h g s items = buildItemProcessors h g s' items := by
  induction items with
  | nil => rfl
  | cons it rest ih =>
    simp only [buildItemProcessors, ih]
    rfl

/-- The item-processing loop of Process always succeeds and credits each
resolved receiver balance with its item amount, in order. -/
lemma processItems_ok (g : GetState) (s : SetState) (rb : List TransferProcessor) :
    processItems g s rb = .ok (rb.map (fun c => c.rb.Add c.fact.amount)) := by
  induction rb with
  | nil => rfl
  | cons c rest ih =>
    simp only [processItems, TransferProcessor.process, ih]
    rfl

/-- Inversion of a successful whole-operation PreProcess: the sender
balance entry was found and holds a sufficient balance, the fee was
computed, the item fan-out succeeded and the signature check passed; the
resulting processor stores the resolved pieces. -/
lemma transfersProcessor_preProcess_ok (tp tp' : TransfersProcessor) (cs : CheckSigns)
    (g : GetState) (s : SetState)
    (hp : (tp.preProcess cs g s).1 = .ok tp') :
    ∃ st fee b rb,
      g (StateKeyBalance tp.op.fact.sender) = .ok (some st) ∧
      tp.calculateFee = .ok fee ∧
      StateAmountValue st = .ok b ∧
      ¬ b < tp.op.fact.Amount + fee ∧
      buildItemProcessors tp.op.h g s tp.op.fact.items = .ok rb ∧
      cs tp.op.fact.sender tp.op.signs g = .ok () ∧
      tp' = { tp with sb := NewAmountState st, fee := fee, rb := rb } := by
  unfold TransfersProcessor.preProcess at hp
  dsimp only at hp
  cases hacct : checkExistsAccountState (StateKeyAccount tp.op.fact.sender) g with
  | some e => rw [hacct] at hp; cases hp
  | none =>
    rw [hacct] at hp
    dsimp only at hp
    cases hex : existsAccountState (StateKeyBalance tp.op.fact.sender) "balance of sender" g with
    | error e => rw [hex] at hp; cases hp
    | ok st =>
      rw [hex] at hp
      dsimp only at hp
      cases hfee : tp.calculateFee with
      | error e => rw [hfee] at hp; cases hp
      | ok fee =>
        rw [hfee] at hp
        dsimp only at hp
        cases hval : StateAmountValue st with
        | error e => rw [hval] at hp; cases hp
        | ok b =>
          rw [hval] at hp
          dsimp only at hp
          by_cases hlt : b < tp.op.fact.Amount + fee
          · rw [if_pos hlt] at hp; cases hp
          · rw [if_neg hlt] at hp
            cases hbi : buildItemProcessors tp.op.h g s tp.op.fact.items with
            | error e => rw [hbi] at hp; cases hp
            | ok rb =>
              rw [hbi] at hp
              dsimp only at hp
              cases hcs : cs tp.op.fact.sender tp.op.signs g with
              | error e => rw [hcs] at hp; cases hp
              | ok u =>
                rw [hcs] at hp
                dsimp only at hp
                cases u
                cases hp
                exact ⟨st, fee, b, rb, (existsAccountState_ok _ _ _ _).mp hex,
                  rfl, hval, hlt, rfl, rfl, rfl⟩

/-- C4: PreProcess never invokes the commit callback: its commit log is
empty for every input and outcome, and its result (the whole-operation
one and the per-item one) does not depend on the commit callback at all,
so no ledger state is mutated when PreProcess rejects. -/
theorem transfers_preProcess_no_commit (tp : TransfersProcessor) (cs : CheckSigns)
    (g : GetState) (s s' : SetState) (c : TransferProcessor) :
    (tp.preProcess cs g s).2 = [] ∧
    tp.preProcess cs g s = tp.preProcess cs g s' ∧
    c.preProcess g s = c.preProcess g s' := by
  refine ⟨rfl, ?_, rfl⟩
  unfold TransfersProcessor.preProcess
  rw [buildItemProcessors_setState_indep tp.op.h g s s' tp.op.fact.items]

/-- C5: after a successful PreProcess, Process commits exactly one batch
keyed by the fact hash, containing N+1 states: for each item in order the
resolved receiver balance credited with that item's amount, followed last
by the sender balance computed as Sub(principal + fee).AddFee(fee). -/
theorem transfers_process_commit_structure (tp tp' : TransfersProcessor) (cs : CheckSigns)
    (g : GetState) (s : SetState)
    (hp : (tp.preProcess cs g s).1 = .ok tp') :
    ∃ sts : List AmountState,
      (∀ s' : SetState, tp'.process g s' = (s' tp.op.fact.h sts, [(tp.op.fact.h, sts)])) ∧
      sts.length = tp.op.fact.items.length + 1 ∧
      tp'.rb.map (fun c => c.fact) = tp.op.fact.items ∧
      sts = tp'.rb.map (fun c => c.rb.Add c.fact.amount) ++
        [(tp'.sb.Sub (tp.op.fact.Amount + tp'.fee)).AddFee tp'.fee] ∧
      (∀ c ∈ tp'.rb, ∃ stc, g (StateKeyBalance c.fact.receiver) = .ok (some stc) ∧
        c.rb = NewAmountState stc) := by
  obtain ⟨st, fee, b, rb, hbal, hfee, hval, hlt, hbi, hcs, rfl⟩ :=
    transfersProcessor_preProcess_ok tp tp' cs g s hp
  obtain ⟨hmap, hall⟩ := buildItemProcessors_ok _ _ _ _ _ hbi
  have hlen : rb.length = tp.op.fact.items.length := by
    have := congrArg List.length hmap
    simpa using this
  refine ⟨rb.map (fun c => c.rb.Add c.fact.amount) ++
      [((NewAmountState st).Sub (tp.op.fact.Amount + fee)).AddFee fee], ?_, ?_, hmap, rfl, hall⟩
  · intro s'
    unfold TransfersProcessor.process
    rw [processItems_ok]
  · simp [hlen]

/-- C3: conservation — when PreProcess succeeded with sender balance b and
Process then succeeds, the committed batch credits each receiver by its
item amount and debits the sender so that
b = principal + senderBalanceAfter + fee exactly. -/
theorem transfers_process_conservation (tp tp' : TransfersProcessor) (cs : CheckSigns)
    (g : GetState) (s s' : SetState) (st : St) (b : Int) (log : CommitLog)
    (hpre : (tp.preProcess cs g s).1 = .ok tp')
    (hb : g (StateKeyBalance tp.op.fact.sender) = .ok (some st))
    (hv : StateAmountValue st = .ok b)
    (hproc : tp'.process g s' = (none, log)) :
    ∃ sts : List AmountState,
      log = [(tp.op.fact.h, sts)] ∧
      b = tp.op.fact.Amount + (sts.getLastD default).amount + tp'.fee ∧
      sts.take tp'.rb.length = tp'.rb.map (fun c => c.rb.Add c.fact.amount) ∧
      tp'.rb.map (fun c => c.fact) = tp.op.fact.items := by
  obtain ⟨st0, fee, b0, rb, hbal, hfee, hval, hlt, hbi, hcs, rfl⟩ :=
    transfersProcessor_preProcess_ok tp tp' cs g s hpre
  obtain ⟨hmap, hall⟩ := buildItemProcessors_ok _ _ _ _ _ hbi
  rw [hb] at hbal
  have hst : st0 = st := (Option.some.inj (Except.ok.inj hbal)).symm
  subst hst
  rw [hval] at hv
  have hb0 : b0 = b := Except.ok.inj hv
  subst hb0
  unfold TransfersProcessor.process at hproc
  rw [processItems_ok] at hproc
  dsimp only at hproc
  have hlog := congrArg Prod.snd hproc
  dsimp only at hlog
  refine ⟨rb.map (fun c => c.rb.Add c.fact.amount) ++
      [((NewAmountState st0).Sub (tp.op.fact.Amount + fee)).AddFee fee],
    hlog.symm, ?_, ?_, hmap⟩
  · have hbv : st0.value = .balance b0 := (StateAmountValue_ok st0 b0).mp hval
    have hb' : (NewAmountState st0).amount = b0 := by
      simp [NewAmountState, hbv]
    simp only [List.getLastD_concat]
    simp [AmountState.Sub, AmountState.AddFee, hb']
    ring
  · have := List.take_left (rb.map (fun c => c.rb.Add c.fact.amount))
      [((NewAmountState st0).Sub (tp.op.fact.Amount + fee)).AddFee fee]
    rw [List.length_map] at this
    exact this

/-- C6: once the sender account and balance were found, the fee computed
and the balance value extracted, PreProcess rejects with the ignorable
"insufficient balance of sender" error exactly when the balance is
strictly below principal + fee; an exactly sufficient balance is not
rejected for insufficiency. -/
theorem preProcess_insufficient_balance_iff (tp : TransfersProcessor) (cs : CheckSigns)
    (g : GetState) (s : SetState) (st : St) (b fee : Int)
    (hacct : checkExistsAccountState (StateKeyAccount tp.op.fact.sender) g = none)
    (hb : g (StateKeyBalance tp.op.fact.sender) = .ok (some st))
    (hfee : tp.calculateFee = .ok fee)
    (hv : StateAmountValue st = .ok b) :
    (tp.preProcess cs g s).1 = .error (.ignoreMsg "insufficient balance of sender") ↔
      b < tp.op.fact.Amount + fee := by
  have hex : existsAccountState (StateKeyBalance tp.op.fact.sender) "balance of sender" g
      = .ok st := (existsAccountState_ok _ _ _ _).mpr hb
  unfold TransfersProcessor.preProcess
  dsimp only
  rw [hacct]
  dsimp only
  rw [hex]
  dsimp only
  rw [hfee]
  dsimp only
  rw [hv]
  dsimp only
  by_cases hlt : b < tp.op.fact.Amount + fee
  · rw [if_pos hlt]
    simpa using hlt
  · rw [if_neg hlt]
    refine iff_of_false ?_ hlt
    cases hbi : buildItemProcessors tp.op.h g s tp.op.fact.items with
    | error e =>
      dsimp only
      obtain ⟨e', rfl⟩ := buildItemProcessors_err _ _ _ _ _ hbi
      simp
    | ok rb =>
      dsimp only
      cases hcs : cs tp.op.fact.sender tp.op.signs g with
      | error e => dsimp only; simp
      | ok u => dsimp only; cases u; simp

/-- C1 (amended): when every step before the signature-authorization check
succeeds and that check fails with cause e, PreProcess returns the plain
error wrapping "invalid signing" around e — an error that is NOT of the
ignorable class used for insufficient balance and receiver-not-found. -/
theorem preProcess_signing_failure_plain (tp : TransfersProcessor) (cs : CheckSigns)
    (g : GetState) (s : SetState) (st : St) (b fee : Int)
    (rb : List TransferProcessor) (e : PErr)
    (hacct : checkExistsAccountState (StateKeyAccount tp.op.fact.sender) g = none)
    (hb : g (StateKeyBalance tp.op.fact.sender) = .ok (some st))
    (hfee : tp.calculateFee = .ok fee)
    (hv : StateAmountValue st = .ok b)
    (hge : ¬ b < tp.op.fact.Amount + fee)
    (hbi : buildItemProcessors tp.op.h g s tp.op.fact.items = .ok rb)
    (hcs : cs tp.op.fact.sender tp.op.signs g = .error e) :
    (tp.preProcess cs g s).1 = .error (.wrap "invalid signing" e) ∧
    (PErr.wrap "invalid signing" e).isIgnorable = false := by
  have hex : existsAccountState (StateKeyBalance tp.op.fact.sender) "balance of sender" g
      = .ok st := (existsAccountState_ok _ _ _ _).mpr hb
  refine ⟨?_, rfl⟩
  unfold TransfersProcessor.preProcess
  dsimp only
  rw [hacct]
  dsimp only
  rw [hex]
  dsimp only
  rw [hfee]
  dsimp only
  rw [hv]
  dsimp only
  rw [if_neg hge, hbi]
  dsimp only
  rw [hcs]

/-- C1 counterexample: on a concrete operation where every earlier step
succeeds and only the signature check fails, PreProcess returns a plain
"invalid signing" error that is NOT of the ignorable class — refuting the
claim that this failure uses the same ignorable convention as
insufficient balance and receiver-not-found. -/
theorem preProcess_signing_cex :
    (egTP.preProcess egSignFail egGet egSet).1 =
      .error (.wrap "invalid signing" (.msg "bad signing")) ∧
    (PErr.wrap "invalid signing" (.msg "bad signing")).isIgnorable = false :=
  ⟨rfl, rfl⟩

/-- C1 witness: the amended theorem instantiated on the concrete
operation. -/
theorem preProcess_signing_failure_plain_witness :
    checkExistsAccountState (StateKeyAccount egTP.op.fact.sender) egGet = none ∧
    egGet (StateKeyBalance egTP.op.fact.sender) = .ok (some ⟨"s:balance", .balance 100⟩) ∧
    egTP.calculateFee = .ok 1 ∧
    StateAmountValue ⟨"s:balance", .balance 100⟩ = .ok 100 ∧
    ¬ (100 : Int) < egTP.op.fact.Amount + 1 ∧
    buildItemProcessors egTP.op.h egGet egSet egTP.op.fact.items =
      .ok [⟨egOp.h, egItem, NewAmountState ⟨"r:balance", .balance 7⟩⟩] ∧
    egSignFail egTP.op.fact.sender egTP.op.signs egGet = .error (.msg "bad signing") ∧
    ((egTP.preProcess egSignFail egGet egSet).1 =
        .error (.wrap "invalid signing" (.msg "bad signing")) ∧
      (PErr.wrap "invalid signing" (.msg "bad signing")).isIgnorable = false) :=
  ⟨rfl, rfl, rfl, rfl, by decide, rfl, rfl,
    preProcess_signing_failure_plain egTP egSignFail egGet egSet
      ⟨"s:balance", .balance 100⟩ 100 1
      [⟨egOp.h, egItem, NewAmountState ⟨"r:balance", .balance 7⟩⟩] (.msg "bad signing")
      rfl rfl rfl rfl (by decide) rfl rfl⟩

/-- C6 witness: the insufficiency criterion instantiated on the concrete
operation (balance 100, principal 5, fee 1: no rejection). -/
theorem preProcess_insufficient_balance_iff_witness :
    checkExistsAccountState (StateKeyAccount egTP.op.fact.sender) egGet = none ∧
    egGet (StateKeyBalance egTP.op.fact.sender) = .ok (some ⟨"s:balance", .balance 100⟩) ∧
    egTP.calculateFee = .ok 1 ∧
    StateAmountValue ⟨"s:balance", .balance 100⟩ = .ok 100 ∧
    ((egTP.preProcess egSignOK egGet egSet).1 =
        .error (.ignoreMsg "insufficient balance of sender") ↔
      (100 : Int) < egTP.op.fact.Amount + 1) :=
  ⟨rfl, rfl, rfl, rfl,
    preProcess_insufficient_balance_iff egTP egSignOK egGet egSet
      ⟨"s:balance", .balance 100⟩ 100 1 rfl rfl rfl rfl⟩

/-- C5 witness: the commit-batch characterization instantiated on the
concrete operation. -/
theorem transfers_process_commit_structure_witness :
    (egTP.preProcess egSignOK egGet egSet).1 = .ok egTP' ∧
    (∃ sts : List AmountState,
      (∀ s' : SetState, egTP'.process egGet s' =
        (s' egTP.op.fact.h sts, [(egTP.op.fact.h, sts)])) ∧
      sts.length = egTP.op.fact.items.length + 1 ∧
      egTP'.rb.map (fun c => c.fact) = egTP.op.fact.items ∧
      sts = egTP'.rb.map (fun c => c.rb.Add c.fact.amount) ++
        [(egTP'.sb.Sub (egTP.op.fact.Amount + egTP'.fee)).AddFee egTP'.fee] ∧
      (∀ c ∈ egTP'.rb, ∃ stc, egGet (StateKeyBalance c.fact.receiver) = .ok (some stc) ∧
        c.rb = NewAmountState stc)) :=
  ⟨rfl, transfers_process_commit_structure egTP egTP' egSignOK egGet egSet rfl⟩

/-- C3 witness: conservation instantiated on the concrete operation —
100 = 5 + 94 + 1. -/
theorem transfers_process_conservation_witness :
    (egTP.preProcess egSignOK egGet egSet).1 = .ok egTP' ∧
    egGet (StateKeyBalance egTP.op.fact.sender) = .ok (some ⟨"s:balance", .balance 100⟩) ∧
    StateAmountValue ⟨"s:balance", .balance 100⟩ = .ok 100 ∧
    egTP'.process egGet egSet = (none, [(egTP.op.fact.h, egSts)]) ∧
    (∃ sts : List AmountState,
      ([(egTP.op.fact.h, egSts)] : CommitLog) = [(egTP.op.fact.h, sts)] ∧
      (100 : Int) = egTP.op.fact.Amount + (sts.getLastD default).amount + egTP'.fee ∧
      sts.take egTP'.rb.length = egTP'.rb.map (fun c => c.rb.Add c.fact.amount) ∧
      egTP'.rb.map (fun c => c.fact) = egTP.op.fact.items) :=
  ⟨rfl, rfl, rfl, by decide,
    transfers_process_conservation egTP egTP' egSignOK egGet egSet egSet
      ⟨"s:balance", .balance 100⟩ 100 [(egTP.op.fact.h, egSts)]
      rfl rfl rfl (by decide)⟩
